import Mathlib

/-!
Shallow embedding of the registration required-fields resolver
(`openedx/core/djangoapps/user_authn/api/required_fields.py`) and of the
save-for-later program endpoint
(`lms/djangoapps/save_for_later/api/v1/views.py`).

Python lists become `List String`, Python dicts become association lists
(`List (String × String)`) looked up first-match, Python set operations are
modelled by membership on lists, and Python `sorted` on a set of distinct
strings is modelled by insertion sort with the lexicographic order on
`String`.
-/

namespace RegFields

/-- `RequiredFieldsView.EXTRA_FIELDS`, verbatim from the source. -/
def EXTRA_FIELDS : List String :=
  ["confirm_email", "first_name", "last_name", "city", "state", "country",
   "gender", "year_of_birth", "level_of_education", "company", "job_title",
   "title", "mailing_address", "goals", "honor_code", "terms_of_service",
   "profession", "specialty", "marketing_emails_opt_in"]

/-- `RequiredFieldsView.REGISTRATION_EXTRA_FIELDS`, verbatim from the source
(dict as an association list in source order). -/
def REGISTRATION_EXTRA_FIELDS : List (String × String) :=
  [("confirm_email", "hidden"), ("level_of_education", "hidden"),
   ("gender", "optional"), ("year_of_birth", "required"),
   ("mailing_address", "hidden"), ("goals", "required"),
   ("honor_code", "hidden"), ("terms_of_service", "hidden"),
   ("city", "required"), ("country", "required"),
   ("first_name", "required"), ("last_name", "required"),
   ("state", "required")]

/-- `RequiredFieldsView.REGISTRATION_FIELD_ORDER`, verbatim from the source. -/
def REGISTRATION_FIELD_ORDER : List String :=
  ["name", "honor_code", "first_name", "last_name", "username", "email",
   "confirm_email", "password", "city", "state", "country", "gender",
   "year_of_birth", "level_of_education", "specialty", "profession",
   "company", "title", "mailing_address", "goals", "terms_of_service"]

/-- Python `a or b` on lists: `a` when `a` is non-empty (truthy), else `b`. -/
def pyOr (a b : List String) : List String :=
  if a.isEmpty then b else a

/-- Python `set(a) == set(b)`: the two lists have the same members. -/
def sameSet (a b : List String) : Bool :=
  a.all (fun x => b.contains x) && b.all (fun x => a.contains x)

/-- Python `set(a).difference(set(b))` as a duplicate-free list of the
members of `a` that are not members of `b`. -/
def setDiff (a b : List String) : List String :=
  (a.filter (fun x => !b.contains x)).dedup

/-- Lexicographic comparison of strings as character lists by Unicode code
point, matching how Python compares strings; `lexLeChars a b` decides
`a ≤ b`. -/
def lexLeChars : List Char → List Char → Bool
  | [], _ => true
  | _ :: _, [] => false
  | a :: as, b :: bs =>
    if a.toNat < b.toNat then true
    else if b.toNat < a.toNat then false
    else lexLeChars as bs

/-- Lexicographic `≤` on `String`, by Unicode code point, as Python
compares strings. -/
def strLe (a b : String) : Bool := lexLeChars a.data b.data

/-- Python `sorted` on a collection of distinct strings: sort ascending by
the lexicographic order. -/
def pysorted (l : List String) : List String :=
  List.insertionSort (fun a b => strLe a b = true) l

/-- The lexicographic comparison is total. -/
theorem lexLeChars_total (a b : List Char) : lexLeChars a b = true ∨ lexLeChars b a = true := by
  induction a generalizing b with
  | nil => left; rfl
  | cons x xs ih =>
    cases b with
    | nil => right; rfl
    | cons y ys =>
      by_cases h1 : x.toNat < y.toNat
      · left; simp [lexLeChars, h1]
      · by_cases h2 : y.toNat < x.toNat
        · right; simp [lexLeChars, h2]
        · rcases ih ys with h | h
          · left; simp [lexLeChars, h1, h2, h]
          · right; simp [lexLeChars, h1, h2, h]

/-- The lexicographic comparison is antisymmetric. -/
theorem lexLeChars_antisymm (a b : List Char) (h1 : lexLeChars a b = true)
    (h2 : lexLeChars b a = true) : a = b := by
  induction a generalizing b with
  | nil =>
    cases b with
    | nil => rfl
    | cons y ys => simp [lexLeChars] at h2
  | cons x xs ih =>
    cases b with
    | nil => simp [lexLeChars] at h1
    | cons y ys =>
      by_cases hxy : x.toNat < y.toNat
      · have hyx : ¬ y.toNat < x.toNat := Nat.lt_asymm hxy
        simp [lexLeChars, hxy, hyx] at h2
      · by_cases hyx : y.toNat < x.toNat
        · simp [lexLeChars, hxy, hyx] at h1
        · have hval : x.toNat = y.toNat :=
            Nat.le_antisymm (Nat.not_lt.mp hyx) (Nat.not_lt.mp hxy)
          have hc : x = y := Char.eq_of_val_eq (UInt32.ext hval)
          subst hc
          simp [lexLeChars, hxy] at h1 h2
          rw [ih ys h1 h2]

/-- The lexicographic comparison is transitive. -/
theorem lexLeChars_trans (a b c : List Char) (h1 : lexLeChars a b = true)
    (h2 : lexLeChars b c = true) : lexLeChars a c = true := by
  induction a generalizing b c with
  | nil => rfl
  | cons x xs ih =>
    cases b with
    | nil => simp [lexLeChars] at h1
    | cons y ys =>
      cases c with
      | nil => simp [lexLeChars] at h2
      | cons z zs =>
        by_cases hxy : x.toNat < y.toNat <;> by_cases hyx : y.toNat < x.toNat
        · exact absurd hxy (Nat.lt_asymm hyx)
        · by_cases hyz : y.toNat < z.toNat
          · have := Nat.lt_trans hxy hyz
            simp [lexLeChars, this]
          · by_cases hzy : z.toNat < y.toNat
            · simp [lexLeChars, hyz, hzy] at h2
            · have e : y.toNat = z.toNat :=
                Nat.le_antisymm (Nat.not_lt.mp hzy) (Nat.not_lt.mp hyz)
              have : x.toNat < z.toNat := e ▸ hxy
              simp [lexLeChars, this]
        · simp [lexLeChars, hxy, hyx] at h1
        · have e1 : x.toNat = y.toNat :=
            Nat.le_antisymm (Nat.not_lt.mp hyx) (Nat.not_lt.mp hxy)
          by_cases hyz : y.toNat < z.toNat
          · have : x.toNat < z.toNat := e1 ▸ hyz
            simp [lexLeChars, this]
          · by_cases hzy : z.toNat < y.toNat
            · simp [lexLeChars, hyz, hzy] at h2
            · have e2 : y.toNat = z.toNat :=
                Nat.le_antisymm (Nat.not_lt.mp hzy) (Nat.not_lt.mp hyz)
              simp [lexLeChars, hxy, hyx] at h1
              simp [lexLeChars, hyz, hzy] at h2
              have hxz : ¬ x.toNat < z.toNat := by rw [e1, e2]; exact Nat.lt_irrefl _
              have hzx : ¬ z.toNat < x.toNat := by rw [e1, e2]; exact Nat.lt_irrefl _
              simp [lexLeChars, hxz, hzx]
              exact ih ys zs h1 h2

/-- `strLe` is total. -/
theorem strLe_total (a b : String) : strLe a b = true ∨ strLe b a = true :=
  lexLeChars_total a.data b.data

/-- `strLe` is antisymmetric. -/
theorem strLe_antisymm (a b : String) (h1 : strLe a b = true) (h2 : strLe b a = true) :
    a = b := by
  cases a; cases b
  exact congrArg String.mk (lexLeChars_antisymm _ _ h1 h2)

/-- `strLe` is transitive. -/
theorem strLe_trans (a b c : String) (h1 : strLe a b = true) (h2 : strLe b c = true) :
    strLe a c = true :=
  lexLeChars_trans a.data b.data c.data h1 h2

instance : IsTotal String (fun a b => strLe a b = true) := ⟨strLe_total⟩

instance : IsTrans String (fun a b => strLe a b = true) := ⟨strLe_trans⟩

instance : IsAntisymm String (fun a b => strLe a b = true) := ⟨strLe_antisymm⟩

/-- `RequiredFieldsView._get_field_order`, as a function of the two
configuration lists it reads (`EXTRA_FIELDS` is the catalog,
`REGISTRATION_FIELD_ORDER` the configured order).  Returns the value of the
list the Python function returns. -/
def get_field_order (extra_fields reg_field_order : List String) : List String :=
  let field_order := if reg_field_order.isEmpty then pyOr reg_field_order extra_fields
                     else reg_field_order
  if sameSet extra_fields field_order then field_order
  else field_order ++ pysorted (setDiff extra_fields field_order)

/-- `self._fields_setting["honor_code"] = self._fields_setting.get("honor_code", "required")`:
the requirement map with `honor_code` defaulted to `"required"` when absent
(a Python dict assignment of a missing key appends it in insertion order). -/
def defaultHonorCode (m : List (String × String)) : List (String × String) :=
  match m.lookup "honor_code" with
  | some _ => m
  | none => m ++ [("honor_code", "required")]

/-- The COPPA exclusion in `RequiredFieldsView.__init__`:
`if settings.ENABLE_COPPA_COMPLIANCE and 'year_of_birth' in ordered: ordered.remove('year_of_birth')`
(`list.remove` deletes the first occurrence only). -/
def coppaRemove (coppa : Bool) (l : List String) : List String :=
  if coppa && l.contains "year_of_birth" then l.erase "year_of_birth" else l

/-- The required-field filter in `RequiredFieldsView.__init__`:
`[field for field in ordered if fields_setting.get(field) == 'required']`,
applied to an already honor-code-defaulted map. -/
def required_filter (ordered : List String) (m : List (String × String)) : List String :=
  ordered.filter (fun f => m.lookup f == some "required")

/-- `RequiredFieldsView.__init__`'s computation of `self.valid_fields`, as a
function of the configuration it reads: honor-code defaulting of the
requirement map, order reconciliation, COPPA exclusion, required filter. -/
def valid_fields (extra_fields reg_field_order : List String)
    (reg_extra_fields : List (String × String)) (coppa : Bool) : List String :=
  required_filter (coppaRemove coppa (get_field_order extra_fields reg_field_order))
    (defaultHonorCode reg_extra_fields)

/-- The requirement level the spec assigns to a field name: the map's entry,
except that `honor_code` defaults to `"required"` when absent; any other
absent name has no level (and so is never required). -/
def requiredLevel (m : List (String × String)) (f : String) : Option String :=
  if f = "honor_code" then some ((m.lookup f).getD "required") else m.lookup f

/-- Reference definition of the order reconciliation, following the spec's
words: if `order` is empty, substitute `catalog` as the order; then, if the
name sets of `order` and `catalog` differ, append the set difference
`catalog − order`, sorted lexicographically ascending, to `order`. -/
def resolve_order_spec (catalog order : List String) : List String :=
  let order2 := if order.isEmpty then catalog else order
  if order2.toFinset = catalog.toFinset then order2
  else order2 ++ Finset.sort (fun a b => strLe a b = true) (catalog.toFinset \ order2.toFinset)

/-- A DRF `Response` as produced by `RequiredFieldsView.get`: either the
error payload with its HTTP status, or the success payload carrying the
`fields` mapping (a dict in insertion order) and the `extended_profile`
list.  `D` is the type of field descriptors produced by the `form_fields`
collaborator. -/
inductive PyResponse (D : Type) where
  | err (status : Nat) (error_code : String)
  | ok (status : Nat) (fields : List (String × D)) (extended_profile : List String)
deriving DecidableEq

/-- The response-dict loop of `RequiredFieldsView.get`: for each valid
field, `getattr(form_fields, f'add_{field}_field', None)` either yields a
handler or `None`; a missing handler is skipped; `honor_code`'s handler is
called with the configured `terms_of_service` level, every other handler
with no argument (modelled as `none`). -/
def buildFieldsDict (D : Type) (valid : List String)
    (handlers : String → Option (Option String → D)) (tos : Option String) :
    List (String × D) :=
  valid.filterMap (fun f =>
    (handlers f).map (fun h => (f, h (if f = "honor_code" then tos else none))))

/-- `RequiredFieldsView.get`, as a function of the computed `valid_fields`,
the handler lookup on the `form_fields` module, the configured
`terms_of_service` level and the configured `extended_profile_fields`. -/
def get_view (D : Type) (valid : List String)
    (handlers : String → Option (Option String → D)) (tos : Option String)
    (extended_profile : List String) : PyResponse D :=
  let response := buildFieldsDict D valid handlers tos
  if valid.isEmpty || response.isEmpty then
    PyResponse.err 400 "required_fields_configured_incorrectly"
  else
    PyResponse.ok 200 response extended_profile

/-! ### Stateful model of the class-level configuration lists

`EXTRA_FIELDS` and `REGISTRATION_FIELD_ORDER` are class attributes shared by
every instance of `RequiredFieldsView`.  In `_get_field_order` the local
`field_order` is an alias of one of them (never a copy): `field_order =
self.REGISTRATION_FIELD_ORDER`, or `REGISTRATION_FIELD_ORDER or
EXTRA_FIELDS` when the former is empty.  `field_order.extend(...)` and the
later `ordered_extra_fields.remove('year_of_birth')` therefore mutate that
class attribute in place.  The model passes the pair of lists as explicit
state and records which of the two the local variable aliases. -/

/-- The two class-level configuration lists of `RequiredFieldsView`. -/
structure ConfigState where
  extra_fields : List String
  reg_field_order : List String
deriving DecidableEq

/-- Which class attribute the local `field_order` list aliases. -/
inductive FieldAlias where
  | regOrder
  | extraFields
deriving DecidableEq

/-- Read the list a `FieldAlias` points at. -/
def aliasGet (s : ConfigState) : FieldAlias → List String
  | FieldAlias.regOrder => s.reg_field_order
  | FieldAlias.extraFields => s.extra_fields

/-- Write through a `FieldAlias` (the in-place mutation of the aliased
class attribute). -/
def aliasSet (s : ConfigState) (a : FieldAlias) (l : List String) : ConfigState :=
  match a with
  | FieldAlias.regOrder => { s with reg_field_order := l }
  | FieldAlias.extraFields => { s with extra_fields := l }

/-- `RequiredFieldsView._get_field_order` with the aliasing made explicit:
returns the updated configuration state and the alias the returned list is. -/
def get_field_order_st (s : ConfigState) : ConfigState × FieldAlias :=
  let al := if s.reg_field_order.isEmpty then FieldAlias.extraFields
            else FieldAlias.regOrder
  let field_order := aliasGet s al
  if sameSet s.extra_fields field_order then (s, al)
  else (aliasSet s al (field_order ++ pysorted (setDiff s.extra_fields field_order)), al)

/-- `RequiredFieldsView.__init__` with the aliasing made explicit: one
construction of the view, returning the configuration state it leaves
behind and the `valid_fields` it computes.  `rm` is the (deep-copied)
`REGISTRATION_EXTRA_FIELDS` and `coppa` is `settings.ENABLE_COPPA_COMPLIANCE`. -/
def init_st (coppa : Bool) (rm : List (String × String)) (s : ConfigState) :
    ConfigState × List String :=
  let rm2 := defaultHonorCode rm
  let p := get_field_order_st s
  let ordered := aliasGet p.1 p.2
  let q :=
    if coppa && ordered.contains "year_of_birth" then
      (aliasSet p.1 p.2 (ordered.erase "year_of_birth"), ordered.erase "year_of_birth")
    else (p.1, ordered)
  (q.1, q.2.filter (fun f => rm2.lookup f == some "required"))

end RegFields

namespace SaveForLater

/-- One row of the `SavedProgram` table, keyed by the three lookup fields
`ProgramSaveForLaterApiView.post` passes to `update_or_create`.  `email` is
`request.data.get('email')`, stored as given (absent → `none`). -/
structure SavedProgramRow where
  user_id : Nat
  email : Option String
  program_uuid : String
deriving DecidableEq

/-- A DRF `Response` from the save-for-later views: an error payload
`\x7b'error_code': code\x7d` or the success payload `\x7b'result': 'success'\x7d`,
each with its HTTP status. -/
inductive SflResponse where
  | err (status : Nat) (error_code : String)
  | ok (status : Nat)
deriving DecidableEq

/-- Python truthiness of an optional string (`None` and `''` are falsy). -/
def truthyStr : Option String → Bool
  | none => false
  | some s => !s.isEmpty

/-- `SavedProgram.objects.update_or_create(user_id=..., email=..., program_uuid=...)`:
if a row with those keys exists it is kept (there are no update defaults),
otherwise the row is inserted. -/
def update_or_create (store : List SavedProgramRow) (row : SavedProgramRow) :
    List SavedProgramRow :=
  if store.contains row then store else store ++ [row]

/-- `ProgramSaveForLaterApiView.post`, as a function of its collaborators:
`emailError` is the truthiness of `get_email_validation_error(email)`,
`get_programs` the catalog lookup by uuid, `send_email` the outcome of
`send_email(request, email, program_data)`.  Returns the stored table after
the request (the `transaction.atomic` block commits on every returned
response, since no exception is raised) together with the response. -/
def program_post (P : Type) (emailError : Option String → Bool)
    (get_programs : String → Option P) (send_email : Option String → P → Bool)
    (user_id : Nat) (limited : Bool) (email program_uuid : Option String)
    (store : List SavedProgramRow) : List SavedProgramRow × SflResponse :=
  if limited then (store, SflResponse.err 403 "rate-limited")
  else if emailError email then (store, SflResponse.err 400 "incorrect-email")
  else if !truthyStr program_uuid then (store, SflResponse.err 400 "program-uuid-missing")
  else
    match program_uuid with
    | none => (store, SflResponse.err 400 "program-uuid-missing")
    | some uuid =>
      let program := get_programs uuid
      let store2 := update_or_create store ⟨user_id, email, uuid⟩
      match program with
      | some p =>
        if send_email email p then (store2, SflResponse.ok 200)
        else (store2, SflResponse.err 400 "email-not-send")
      | none => (store2, SflResponse.err 404 "program-not-found")

end SaveForLater

/-! ### Helper lemmas -/

namespace RegFields

/-- `List.contains` decides membership. -/
theorem contains_eq_mem (l : List String) (a : String) : l.contains a = true ↔ a ∈ l :=
  List.elem_iff

/-- `sameSet` decides equality of the membership sets. -/
theorem sameSet_iff (a b : List String) : sameSet a b = true ↔ ∀ x, x ∈ a ↔ x ∈ b := by
  simp only [sameSet, Bool.and_eq_true, List.all_eq_true, contains_eq_mem]
  constructor
  · rintro ⟨h1, h2⟩ x
    exact ⟨fun hx => h1 x hx, fun hx => h2 x hx⟩
  · intro h
    exact ⟨fun x hx => (h x).mp hx, fun x hx => (h x).mpr hx⟩

/-- `sameSet` holds reflexively. -/
theorem sameSet_self (a : List String) : sameSet a a = true :=
  (sameSet_iff a a).mpr (fun _ => Iff.rfl)

/-- `sameSet` as equality of `toFinset`s. -/
theorem sameSet_toFinset (a b : List String) :
    sameSet a b = true ↔ b.toFinset = a.toFinset := by
  rw [sameSet_iff]
  constructor
  · intro h
    ext x
    simp only [List.mem_toFinset]
    exact (h x).symm
  · intro h x
    have := Finset.ext_iff.mp h x
    simp only [List.mem_toFinset] at this
    exact this.symm

/-- Membership in the embedded set difference. -/
theorem mem_setDiff (a b : List String) (x : String) :
    x ∈ setDiff a b ↔ x ∈ a ∧ x ∉ b := by
  simp only [setDiff, List.mem_dedup, List.mem_filter, Bool.not_eq_true']
  constructor
  · rintro ⟨h1, h2⟩
    refine ⟨h1, fun hx => ?_⟩
    rw [← contains_eq_mem] at hx
    rw [hx] at h2
    cases h2
  · rintro ⟨h1, h2⟩
    refine ⟨h1, ?_⟩
    cases hc : b.contains x with
    | false => rfl
    | true => exact absurd ((contains_eq_mem b x).mp hc) h2

/-- The embedded set difference has no duplicates. -/
theorem nodup_setDiff (a b : List String) : (setDiff a b).Nodup :=
  List.nodup_dedup _

/-- `pysorted` permutes its input. -/
theorem pysorted_perm (l : List String) : (pysorted l).Perm l :=
  List.perm_insertionSort _ l

/-- `pysorted` preserves membership. -/
theorem mem_pysorted (l : List String) (x : String) : x ∈ pysorted l ↔ x ∈ l :=
  (pysorted_perm l).mem_iff

/-- `pysorted` sorts by the lexicographic order. -/
theorem pysorted_sorted (l : List String) :
    List.Sorted (fun a b => strLe a b = true) (pysorted l) :=
  List.sorted_insertionSort _ l

/-- `pysorted` preserves freedom from duplicates. -/
theorem pysorted_nodup (l : List String) (h : l.Nodup) : (pysorted l).Nodup :=
  (pysorted_perm l).symm.nodup h

/-- Reconciling an empty order returns the catalog unchanged. -/
theorem get_field_order_nil (C : List String) : get_field_order C [] = C := by
  simp [get_field_order, pyOr, sameSet_self]

/-- The branch structure shared by the source function and the spec's
reference definition coincides once the pre-processed order is fixed. -/
theorem reconcile_branch_eq (C O2 : List String) :
    (if sameSet C O2 then O2 else O2 ++ pysorted (setDiff C O2)) =
    (if O2.toFinset = C.toFinset then O2
     else O2 ++ Finset.sort (fun a b => strLe a b = true) (C.toFinset \ O2.toFinset)) := by
  by_cases h : sameSet C O2 = true
  · rw [if_pos h, if_pos ((sameSet_toFinset C O2).mp h)]
  · rw [if_neg h, if_neg (fun hh => h ((sameSet_toFinset C O2).mpr hh))]
    congr 1
    refine List.eq_of_perm_of_sorted ?_ (pysorted_sorted _) (Finset.sort_sorted _ _)
    refine List.perm_of_nodup_nodup_toFinset_eq (pysorted_nodup _ (nodup_setDiff C O2))
      (Finset.sort_nodup _ _) ?_
    ext x
    simp only [List.mem_toFinset, mem_pysorted, mem_setDiff, Finset.mem_sort,
      Finset.mem_sdiff]

end RegFields

/-! ### Claim theorems -/

namespace RegFields

/-- C1.  The claim quantifies over all catalogs and orders, including orders
containing names not in the catalog; for such an order the result keeps the
foreign names and is not a permutation of the catalog.  Concretely, with
catalog `["a"]` and order `["b"]` the reconciliation returns `["b", "a"]`. -/
theorem get_field_order_not_always_perm :
    get_field_order ["a"] ["b"] = ["b", "a"] ∧
    ¬ (get_field_order ["a"] ["b"]).Perm ["a"] := by
  decide

/-- C1 (amended).  For every duplicate-free catalog `C` and duplicate-free
order `O` whose names all occur in `C`, the reconciliation
`_get_field_order` returns a permutation of `C` with no duplicates. -/
theorem get_field_order_perm_of_subset (C O : List String) (hC : C.Nodup) (hO : O.Nodup)
    (hsub : ∀ x ∈ O, x ∈ C) :
    (get_field_order C O).Perm C ∧ (get_field_order C O).Nodup := by
  have main : (get_field_order C O).Perm C := by
    cases O with
    | nil => rw [get_field_order_nil]
    | cons o os =>
      show (if sameSet C (o :: os) then o :: os
            else (o :: os) ++ pysorted (setDiff C (o :: os))).Perm C
      by_cases hs : sameSet C (o :: os) = true
      · rw [if_pos hs]
        refine List.perm_of_nodup_nodup_toFinset_eq hO hC ?_
        exact (sameSet_toFinset C (o :: os)).mp hs
      · rw [if_neg hs]
        have hnd : ((o :: os) ++ pysorted (setDiff C (o :: os))).Nodup := by
          refine List.Nodup.append hO (pysorted_nodup _ (nodup_setDiff _ _)) ?_
          intro x hx hx2
          rw [mem_pysorted, mem_setDiff] at hx2
          exact hx2.2 hx
        refine List.perm_of_nodup_nodup_toFinset_eq hnd hC ?_
        ext x
        simp only [List.mem_toFinset, List.mem_append, mem_pysorted, mem_setDiff]
        constructor
        · rintro (hx | hx)
          · exact hsub x hx
          · exact hx.1
        · intro hx
          by_cases hxO : x ∈ o :: os
          · exact Or.inl hxO
          · exact Or.inr ⟨hx, hxO⟩
  exact ⟨main, main.symm.nodup hC⟩

/-- C1 witness: catalog `["a", "b"]`, order `["b"]`. -/
theorem get_field_order_perm_of_subset_witness :
    (get_field_order ["a", "b"] ["b"]).Perm ["a", "b"] ∧
    (get_field_order ["a", "b"] ["b"]).Nodup :=
  get_field_order_perm_of_subset ["a", "b"] ["b"] (by decide) (by decide) (by decide)

/-- C5.  The source reconciliation `_get_field_order` coincides with the
spec's reference definition (empty order replaced by the catalog; on a
name-set mismatch the lexicographically sorted set difference
`catalog − order` is appended), and on an empty order it returns the
catalog itself. -/
theorem get_field_order_matches_spec :
    (∀ C O, get_field_order C O = resolve_order_spec C O) ∧
    ∀ C, get_field_order C [] = C := by
  constructor
  · intro C O
    cases O with
    | nil =>
      show (if sameSet C C then C else C ++ pysorted (setDiff C C)) =
        (if C.toFinset = C.toFinset then C
         else C ++ Finset.sort (fun a b => strLe a b = true) (C.toFinset \ C.toFinset))
      exact reconcile_branch_eq C C
    | cons o os =>
      show (if sameSet C (o :: os) then (o :: os)
            else (o :: os) ++ pysorted (setDiff C (o :: os))) =
        (if (o :: os).toFinset = C.toFinset then (o :: os)
         else (o :: os) ++
           Finset.sort (fun a b => strLe a b = true) (C.toFinset \ (o :: os).toFinset))
      exact reconcile_branch_eq C (o :: os)
  · exact get_field_order_nil

/-- `List.lookup` over an appended association list tries the left list
first. -/
theorem lookup_append (k : String) (l1 l2 : List (String × String)) :
    (l1 ++ l2).lookup k =
      match l1.lookup k with
      | some v => some v
      | none => l2.lookup k := by
  induction l1 with
  | nil => rfl
  | cons p l ih =>
    obtain ⟨a, b⟩ := p
    by_cases h : k == a
    · simp [List.lookup, h]
    · simp only [List.cons_append, List.lookup, h]
      exact ih

/-- Looking a field up in the honor-code-defaulted map yields the spec's
`requiredLevel`. -/
theorem lookup_defaultHonorCode (R : List (String × String)) (f : String) :
    (defaultHonorCode R).lookup f = requiredLevel R f := by
  unfold defaultHonorCode requiredLevel
  by_cases hf : f = "honor_code"
  · subst hf
    cases hR : R.lookup "honor_code" with
    | some v => simp [hR]
    | none => simp [hR, lookup_append, List.lookup]
  · have hbeq : (f == "honor_code") = false := by
      cases hb : f == "honor_code" with
      | false => rfl
      | true => exact absurd (eq_of_beq hb) hf
    cases hR : R.lookup "honor_code" with
    | some v => simp [hR, hf]
    | none =>
      rw [lookup_append]
      cases hRf : R.lookup f with
      | some v => simp [hRf, hf]
      | none => simp [hRf, hf, List.lookup, hbeq]

/-- C3.  Filtering against the honor-code-defaulted requirement map keeps
exactly the names of the reconciled order whose `requiredLevel` (map entry,
with `honor_code` defaulting to `required` when absent) is `required`; in
particular any name other than `honor_code` that is absent from the map is
never returned, and every returned name other than `honor_code` is mapped
to `required` by the original map. -/
theorem required_filter_matches_spec :
    (∀ (O : List String) (R : List (String × String)),
      required_filter O (defaultHonorCode R) =
        O.filter (fun f => requiredLevel R f == some "required")) ∧
    (∀ (O : List String) (R : List (String × String)) (f : String),
      f ∈ required_filter O (defaultHonorCode R) → f ≠ "honor_code" →
        R.lookup f = some "required") := by
  have key : ∀ (O : List String) (R : List (String × String)),
      required_filter O (defaultHonorCode R) =
        O.filter (fun f => requiredLevel R f == some "required") := by
    intro O R
    unfold required_filter
    refine List.filter_congr ?_
    intro f _
    rw [lookup_defaultHonorCode]
  refine ⟨key, ?_⟩
  intro O R f hmem hf
  rw [key] at hmem
  have hcond := List.of_mem_filter hmem
  have : requiredLevel R f = some "required" := by
    exact eq_of_beq hcond
  unfold requiredLevel at this
  rw [if_neg hf] at this
  exact this

/-- C3 witness: order `["a", "b"]`, map `[("a", "required")]`; the filter
keeps exactly `["a"]`, and the returned `"a"` is mapped to `required`. -/
theorem required_filter_matches_spec_witness :
    required_filter ["a", "b"] (defaultHonorCode [("a", "required")]) =
      List.filter (fun f => requiredLevel [("a", "required")] f == some "required")
        ["a", "b"] ∧
    List.lookup "a" [("a", "required")] = some "required" :=
  ⟨required_filter_matches_spec.1 ["a", "b"] [("a", "required")],
   required_filter_matches_spec.2 ["a", "b"] [("a", "required")] "a" (by decide)
     (by decide)⟩

/-- C2.  One construction of the view on the shipped configuration mutates
the class-level `REGISTRATION_FIELD_ORDER` in place: `_get_field_order`'s
local `field_order` aliases the class attribute, so the
`field_order.extend(sorted(difference))` call permanently appends
`job_title` and `marketing_emails_opt_in` to it, leaving the static
configuration changed for every later request. -/
theorem init_mutates_reg_field_order :
    (init_st false REGISTRATION_EXTRA_FIELDS
        ⟨EXTRA_FIELDS, REGISTRATION_FIELD_ORDER⟩).1.reg_field_order =
      REGISTRATION_FIELD_ORDER ++ ["job_title", "marketing_emails_opt_in"] ∧
    (init_st false REGISTRATION_EXTRA_FIELDS
        ⟨EXTRA_FIELDS, REGISTRATION_FIELD_ORDER⟩).1 ≠
      ConfigState.mk EXTRA_FIELDS REGISTRATION_FIELD_ORDER ∧
    (init_st true REGISTRATION_EXTRA_FIELDS
        ⟨EXTRA_FIELDS, REGISTRATION_FIELD_ORDER⟩).1.reg_field_order =
      (REGISTRATION_FIELD_ORDER ++ ["job_title", "marketing_emails_opt_in"]).erase
        "year_of_birth" := by
  decide

/-- C6.  With the shipped catalog and field order and the compliance flag
set, `year_of_birth` is removed from the reconciled order before the
required filter runs, so it never appears in `valid_fields`, whatever
requirement map is configured — even one marking `year_of_birth` as
required. -/
theorem coppa_excludes_year_of_birth :
    ∀ R : List (String × String),
      (valid_fields EXTRA_FIELDS REGISTRATION_FIELD_ORDER R true).contains
        "year_of_birth" = false := by
  intro R
  cases hc : (valid_fields EXTRA_FIELDS REGISTRATION_FIELD_ORDER R true).contains
      "year_of_birth" with
  | false => rfl
  | true =>
    exfalso
    have hmem := (contains_eq_mem _ _).mp hc
    unfold valid_fields required_filter at hmem
    have hbase := List.mem_of_mem_filter hmem
    exact absurd hbase (by decide)

/-- C8.  End-to-end example: catalog `[first_name, last_name, honor_code,
year_of_birth]`, empty order, map requiring `first_name`, `last_name` and
`year_of_birth`, compliance flag set: the reconciled order is the catalog,
and the pipeline produces exactly `[first_name, last_name, honor_code]`
(honor_code defaulted to required, year_of_birth removed by compliance). -/
theorem end_to_end_example :
    get_field_order ["first_name", "last_name", "honor_code", "year_of_birth"] [] =
      ["first_name", "last_name", "honor_code", "year_of_birth"] ∧
    valid_fields ["first_name", "last_name", "honor_code", "year_of_birth"] []
      [("first_name", "required"), ("last_name", "required"),
       ("year_of_birth", "required")] true =
      ["first_name", "last_name", "honor_code"] := by
  decide

/-- C9.  With the shipped static configuration and the compliance flag off,
`valid_fields` is exactly `[first_name, last_name, city, state, country,
year_of_birth, goals]`; `honor_code` is absent because its configured level
is `hidden`, so the honor-code default (which only fires when the key is
absent) does not apply. -/
theorem shipped_valid_fields :
    valid_fields EXTRA_FIELDS REGISTRATION_FIELD_ORDER REGISTRATION_EXTRA_FIELDS
        false =
      ["first_name", "last_name", "city", "state", "country", "year_of_birth",
       "goals"] ∧
    REGISTRATION_EXTRA_FIELDS.lookup "honor_code" = some "hidden" ∧
    defaultHonorCode REGISTRATION_EXTRA_FIELDS = REGISTRATION_EXTRA_FIELDS ∧
    (valid_fields EXTRA_FIELDS REGISTRATION_FIELD_ORDER REGISTRATION_EXTRA_FIELDS
        false).contains "honor_code" = false := by
  decide

/-- C4.  If the required-field list is empty, or no handler resolves for any
required field, `get` returns the 400 payload
`error_code = required_fields_configured_incorrectly`; and a success
response never carries an empty fields mapping. -/
theorem get_view_config_error (D : Type) (valid : List String)
    (handlers : String → Option (Option String → D)) (tos : Option String)
    (extended_profile : List String) :
    ((valid = [] ∨ ∀ f ∈ valid, handlers f = none) →
      get_view D valid handlers tos extended_profile =
        PyResponse.err 400 "required_fields_configured_incorrectly") ∧
    (∀ (s : Nat) (fields : List (String × D)) (ep : List String),
      get_view D valid handlers tos extended_profile = PyResponse.ok s fields ep →
        fields ≠ []) := by
  constructor
  · intro h
    unfold get_view
    rcases h with h | h
    · subst h
      rfl
    · have hresp : buildFieldsDict D valid handlers tos = [] := by
        unfold buildFieldsDict
        rw [List.filterMap_eq_nil_iff]
        intro f hf
        rw [h f hf]
        rfl
      rw [hresp]
      cases valid <;> rfl
  · intro s fields ep heq hfields
    subst hfields
    simp only [get_view] at heq
    split at heq
    · cases heq
    · rename_i hcond
      injection heq with h1 h2 h3
      rw [h2] at hcond
      simp at hcond

/-- C4 witness: an empty required-field list yields the configuration
error, and the one-field success response is non-empty. -/
theorem get_view_config_error_witness :
    get_view Nat [] (fun _ => none) none [] =
      PyResponse.err 400 "required_fields_configured_incorrectly" ∧
    ([("city", 0)] : List (String × Nat)) ≠ [] :=
  ⟨(get_view_config_error Nat [] (fun _ => none) none []).1 (Or.inl rfl),
   (get_view_config_error Nat ["city"] (fun _ => some (fun _ => 0)) none []).2
     200 [("city", 0)] [] rfl⟩

/-- C7.  The response mapping keeps, in order, exactly the required names
whose handler exists (a missing handler silently drops just that name), and
as soon as at least one required name has a handler the view returns the
200 success response carrying that mapping — a missing handler alone never
produces the error. -/
theorem missing_handler_skipped (D : Type) (valid : List String)
    (handlers : String → Option (Option String → D)) (tos : Option String)
    (extended_profile : List String) :
    (buildFieldsDict D valid handlers tos).map Prod.fst =
      valid.filter (fun f => (handlers f).isSome) ∧
    ((∃ f ∈ valid, (handlers f).isSome) →
      get_view D valid handlers tos extended_profile =
        PyResponse.ok 200 (buildFieldsDict D valid handlers tos) extended_profile) := by
  constructor
  · unfold buildFieldsDict
    induction valid with
    | nil => rfl
    | cons f fs ih =>
      cases hf : handlers f with
      | none => simp [hf, ih]
      | some h => simp [hf, ih]
  · rintro ⟨f, hfmem, hfsome⟩
    have hvalid : valid.isEmpty = false := by
      cases valid with
      | nil => cases hfmem
      | cons a l => rfl
    have hresp : buildFieldsDict D valid handlers tos ≠ [] := by
      intro hnil
      unfold buildFieldsDict at hnil
      rw [List.filterMap_eq_nil_iff] at hnil
      have := hnil f hfmem
      rw [Option.isSome_iff_exists] at hfsome
      obtain ⟨h, hh⟩ := hfsome
      rw [hh] at this
      cases this
    have hrespb : (buildFieldsDict D valid handlers tos).isEmpty = false := by
      cases hb : buildFieldsDict D valid handlers tos with
      | nil => exact absurd rfl (hb ▸ hresp)
      | cons a l => rfl
    simp only [get_view, hvalid, hrespb, Bool.or_self, Bool.false_eq_true,
      if_false]

/-- C7 witness: `gender` has no handler and is dropped; `city` has one, so
the view succeeds with the single-entry mapping. -/
theorem missing_handler_skipped_witness :
    (buildFieldsDict Nat ["gender", "city"]
        (fun f : String =>
          if f = "city" then some (fun _ : Option String => (0 : Nat)) else none)
        none).map Prod.fst =
      List.filter
        (fun f : String =>
          (if f = "city" then some (fun _ : Option String => (0 : Nat))
           else none).isSome)
        ["gender", "city"] ∧
    get_view Nat ["gender", "city"]
        (fun f : String =>
          if f = "city" then some (fun _ : Option String => (0 : Nat)) else none)
        none ["extra"] =
      PyResponse.ok 200
        (buildFieldsDict Nat ["gender", "city"]
          (fun f : String =>
            if f = "city" then some (fun _ : Option String => (0 : Nat)) else none)
          none)
        ["extra"] :=
  ⟨(missing_handler_skipped Nat ["gender", "city"]
      (fun f : String =>
        if f = "city" then some (fun _ : Option String => (0 : Nat)) else none)
      none ["extra"]).1,
   (missing_handler_skipped Nat ["gender", "city"]
      (fun f : String =>
        if f = "city" then some (fun _ : Option String => (0 : Nat)) else none)
      none ["extra"]).2 ⟨"city", by decide, rfl⟩⟩

end RegFields

namespace SaveForLater

/-- The upserted row is present in the table after `update_or_create`. -/
theorem mem_update_or_create (store : List SavedProgramRow) (row : SavedProgramRow) :
    row ∈ update_or_create store row := by
  unfold update_or_create
  by_cases h : store.contains row = true
  · rw [if_pos h]
    exact List.elem_iff.mp h
  · rw [if_neg h]
    exact List.mem_append_right store (List.mem_singleton.mpr rfl)

/-- Inserting a genuinely new row changes the table. -/
theorem update_or_create_ne_of_not_mem (store : List SavedProgramRow)
    (row : SavedProgramRow) (h : row ∉ store) : update_or_create store row ≠ store := by
  unfold update_or_create
  have hc : store.contains row = false := by
    cases hb : store.contains row with
    | false => rfl
    | true => exact absurd (List.elem_iff.mp hb) h
  rw [hc]
  simp only [Bool.false_eq_true, if_false]
  intro heq
  have := congrArg List.length heq
  simp at this

/-- C10.  A program-save request that passes the rate limit, passes email
validation and supplies a non-empty `program_uuid` for which `get_programs`
finds no program still upserts the `SavedProgram` row for
`(user_id, email, program_uuid)` and then returns the 404
`program-not-found` error: the row is in the stored table after the
request, and a previously absent row means the table really changed on this
error path (the `transaction.atomic` block commits, since returning a
response raises no exception). -/
theorem program_post_upserts_before_not_found (P : Type)
    (emailError : Option String → Bool) (get_programs : String → Option P)
    (send_email : Option String → P → Bool) (user_id : Nat)
    (email : Option String) (uuid : String) (store : List SavedProgramRow)
    (h1 : emailError email = false) (h2 : uuid ≠ "")
    (h3 : get_programs uuid = none) :
    program_post P emailError get_programs send_email user_id false email
        (some uuid) store =
      (update_or_create store ⟨user_id, email, uuid⟩,
       SflResponse.err 404 "program-not-found") ∧
    (⟨user_id, email, uuid⟩ : SavedProgramRow) ∈
      (program_post P emailError get_programs send_email user_id false email
        (some uuid) store).1 ∧
    ((⟨user_id, email, uuid⟩ : SavedProgramRow) ∉ store →
      (program_post P emailError get_programs send_email user_id false email
        (some uuid) store).1 ≠ store) := by
  have htruthy : truthyStr (some uuid) = true := by
    show (!uuid.isEmpty) = true
    cases hu : uuid.isEmpty with
    | false => rfl
    | true => exact absurd ((String.isEmpty_iff uuid).mp hu) h2
  have hmain : program_post P emailError get_programs send_email user_id false email
      (some uuid) store =
      (update_or_create store ⟨user_id, email, uuid⟩,
       SflResponse.err 404 "program-not-found") := by
    unfold program_post
    rw [h1, htruthy]
    simp only [Bool.false_eq_true, if_false, Bool.not_true, h3]
  refine ⟨hmain, ?_, ?_⟩
  · rw [hmain]
    exact mem_update_or_create store ⟨user_id, email, uuid⟩
  · intro habs
    rw [hmain]
    exact update_or_create_ne_of_not_mem store ⟨user_id, email, uuid⟩ habs

/-- C10 witness: user 7, email `u@e.x`, uuid `p-1`, empty table, no known
programs: the row is created and the response is the 404 error. -/
theorem program_post_upserts_before_not_found_witness :
    program_post Unit (fun _ => false) (fun _ => none) (fun _ _ => false) 7 false
        (some "u@e.x") (some "p-1") [] =
      (update_or_create [] ⟨7, some "u@e.x", "p-1"⟩,
       SflResponse.err 404 "program-not-found") ∧
    (⟨7, some "u@e.x", "p-1"⟩ : SavedProgramRow) ∈
      (program_post Unit (fun _ => false) (fun _ => none) (fun _ _ => false) 7 false
        (some "u@e.x") (some "p-1") []).1 ∧
    ((⟨7, some "u@e.x", "p-1"⟩ : SavedProgramRow) ∉ ([] : List SavedProgramRow) →
      (program_post Unit (fun _ => false) (fun _ => none) (fun _ _ => false) 7 false
        (some "u@e.x") (some "p-1") []).1 ≠ []) :=
  program_post_upserts_before_not_found Unit (fun _ => false) (fun _ => none)
    (fun _ _ => false) 7 (some "u@e.x") "p-1" [] rfl (by decide) rfl

end SaveForLater
